import Mathlib

/-!
Verification development for the polymarket wallet tracker
(`polymarket_tracker.py`).  The file gives a shallow embedding of the
program's core logic — the trade-deduplication pass (`check_new_trades`),
the aggregation/summary pass (`generate_wallet_summary`), the `/add`
command (`cmd_add`) and the job scheduling performed by `run` — and proves
theorems settling the specification's claims about it.

Modelling conventions:
* Machine floats of the source are modelled as exact rationals (`ℚ`); no
  claim under consideration depends on rounding behaviour.
* A Python `dict` is modelled as an insertion-ordered association list,
  matching CPython's documented key order.
* A Python `set` is modelled as an insertion-ordered duplicate-free list.
  CPython does NOT specify an iteration order for sets, so every place the
  source iterates a set (`list(self.seen_txs)`) the model takes the
  iteration order as an explicit parameter, constrained to be a
  permutation of the underlying elements.
* Exceptions are modelled with `Except Unit` / explicit abort flags,
  mirroring exactly where the source has `try`/`except` blocks.
-/

namespace PolyTrack

/-- Value of a numeric field of an activity record, as consumed by the
source expression `float(act.get(KEY, 0) or 0)`:
`missing` — the key is absent (`get` yields the default `0`);
`nullv` — the key is present but falsy (`None`, `0`, `0.0` or `""`), which
the `or 0` replaces by `0`;
`num q` — a numeric value `q`;
`strv v` — a non-empty string: `v = some q` when the string parses as a
number with value `q`, `v = none` when it does not (then `float` raises). -/
inductive JVal where
  | missing
  | nullv
  | num (q : ℚ)
  | strv (v : Option ℚ)
deriving DecidableEq

/-- Models `float(act.get(KEY, 0) or 0)`: `some q` is the converted value,
`none` means the conversion raised. -/
def py_float : JVal → Option ℚ
  | .missing => some 0
  | .nullv => some 0
  | .num q => some q
  | .strv v => v

/-- Value of a string-typed field of an activity record:
`absent` — the key is missing from the JSON object;
`nullv` — the key is present but holds `null` (or any other non-string
JSON value);
`str s` — the key holds the string `s`.
The distinction matters: `act.get(KEY, default)` substitutes the default
only for a missing key, so a stored null reaches the code as `None` —
falsy in truthiness tests, rendered `"None"` by f-strings, and raising
`AttributeError`/`TypeError` when `.upper()` or slicing is applied. -/
inductive SVal where
  | absent
  | nullv
  | str (s : String)
deriving DecidableEq

/-- Models `act.get(KEY)` with no default: `None` (`none`) both for a
missing key and for a stored null/non-string value. -/
def sval_get : SVal → Option String
  | .absent => none
  | .nullv => none
  | .str s => some s

/-- Models `act.get(KEY, d)`: the default applies only to a missing key;
a stored null stays `None` (`none`). -/
def sval_getD (v : SVal) (d : String) : Option String :=
  match v with
  | .absent => some d
  | .nullv => none
  | .str s => some s

/-- Python `str(x)` as performed by f-string interpolation: `None`
renders as `"None"`. -/
def pyRender : Option String → String
  | none => "None"
  | some s => s

/-- An activity record (a JSON object) as read by the tracker.
String-typed fields carry the absent / null / string distinction. -/
structure ActRecord where
  type : SVal
  transactionHash : SVal
  side : SVal
  title : SVal
  outcome : SVal
  usdcSize : JVal
  price : JVal
deriving DecidableEq

/-- One element of the JSON array returned by the activity endpoint:
either a JSON object (`record`) or some other JSON value, which the
source's `isinstance(act, dict)` check skips. -/
inductive Activity where
  | other
  | record (a : ActRecord)
deriving DecidableEq

/-- The payload of one per-trade Telegram notification, keyed by the
transaction hash that triggered it (source lines 244-258). -/
structure Notif where
  txHash : String
  side : String
  walletName : String
  title : String
  outcome : String
  usdc : ℚ
  price : ℚ
deriving DecidableEq

/-- Result of processing one wallet's activity list inside
`check_new_trades`: the updated `seen_txs`, the notifications sent, and
whether an exception aborted the remainder of this wallet's records
(the source wraps each wallet's loop body in `try`/`except`). -/
structure WalletRes where
  seen : List String
  notifs : List Notif
  aborted : Bool
deriving DecidableEq

/-- The inner record loop of `check_new_trades` (source lines 232-259) for
one wallet.  A record is skipped unless it is a dict of type `"TRADE"`
with a truthy transaction hash (a missing/null/empty hash is falsy) not
already in `seen_txs`; the hash is added to `seen_txs` BEFORE the
numeric conversions, so a record whose `usdcSize`/`price` cannot convert
leaves its hash marked seen, emits no notification, and aborts the rest
of this wallet's records (the surrounding `try`).  When the conversions
succeed the message is built (f-strings render `None` as `"None"`) and
sent — `send_telegram` has its own internal `try`, so delivery failures
never raise — but the post-send `print` slices `title[:40]` (line 259):
a stored-null title then raises `TypeError` AFTER the notification went
out, aborting this wallet's remaining records. -/
def process_wallet (walletName : String) (acts : List Activity)
    (seen : List String) : WalletRes :=
  match acts with
  | [] => ⟨seen, [], false⟩
  | .other :: rest => process_wallet walletName rest seen
  | .record a :: rest =>
    if sval_get a.type ≠ some "TRADE" then process_wallet walletName rest seen
    else
      match sval_getD a.transactionHash "" with
      | none => process_wallet walletName rest seen
      | some tx =>
        if tx = "" ∨ tx ∈ seen then process_wallet walletName rest seen
        else
          match py_float a.usdcSize, py_float a.price with
          | some u, some p =>
            let n : Notif :=
              ⟨tx, pyRender (sval_getD a.side "N/A"), walletName,
               pyRender (sval_getD a.title "Unknown"),
               pyRender (sval_getD a.outcome ""), u, p⟩
            match sval_getD a.title "Unknown" with
            | none => ⟨seen ++ [tx], [n], true⟩
            | some _ =>
              let r := process_wallet walletName rest (seen ++ [tx])
              ⟨r.seen, n :: r.notifs, r.aborted⟩
          | _, _ => ⟨seen ++ [tx], [], true⟩

/-- The wallet loop of `check_new_trades` (source lines 228-262), before
the final compaction.  `fetch addr` stands for the records the activity
endpoint returns for `addr` during this pass (`get_wallet_activity`
itself catches transport errors and returns `[]`).  A per-wallet abort is
caught and the remaining wallets are still processed. -/
def check_core (fetch : String → List Activity)
    (wallets : List (String × String)) (seen : List String) :
    List String × List Notif :=
  match wallets with
  | [] => (seen, [])
  | (addr, walletName) :: rest =>
    let r := process_wallet walletName (fetch addr) seen
    let rec2 := check_core fetch rest r.seen
    (rec2.1, r.notifs ++ rec2.2)

/-- The compaction at the end of `check_new_trades` (source lines
265-266): `self.seen_txs = set(list(self.seen_txs)[-1000:])` when the set
holds more than 2000 entries.  CPython fixes no iteration order for
`list` of a `set`, so the order is the parameter `order`; a faithful
instantiation is any permutation of the current elements. -/
def compact_seen (order : List String → List String) (s : List String) :
    List String :=
  if s.length > 2000 then (order s).drop ((order s).length - 1000) else s

/-- One full `check_new_trades` pass (source lines 226-266): process every
wallet, then compact `seen_txs` if it exceeds 2000 entries. -/
def check_new_trades (order : List String → List String)
    (fetch : String → List Activity) (wallets : List (String × String))
    (seen : List String) : List String × List Notif :=
  let r := check_core fetch wallets seen
  (compact_seen order r.1, r.2)

/-- Repeated short-cycle passes: each element of `fetches` is the activity
environment of one pass; `seen_txs` persists across passes and the
notifications of all passes are concatenated. -/
def run_passes (order : List String → List String)
    (wallets : List (String × String)) (fetches : List (String → List Activity))
    (seen : List String) : List String × List Notif :=
  match fetches with
  | [] => (seen, [])
  | fetch :: rest =>
    let r := check_new_trades order fetch wallets seen
    let r2 := run_passes order wallets rest r.1
    (r2.1, r.2 ++ r2.2)

/-! ## Python string primitives

The source manipulates `str` values with `.strip()`, `.lower()`,
`.upper()`, `.startswith(p)`, `len`, slicing and `", ".join`.  They are
modelled here directly on the character list of the string (Lean's core
counterparts are defined by well-founded recursion on byte positions,
which does not reduce inside the kernel; these character-level versions
are extensionally the same on the ASCII data handled by the tracker). -/

/-- Python `s.lower()`. -/
def py_lower (s : String) : String := ⟨s.data.map Char.toLower⟩

/-- Python `s.upper()`. -/
def py_upper (s : String) : String := ⟨s.data.map Char.toUpper⟩

/-- Python `s.strip()`: remove leading and trailing whitespace. -/
def py_strip (s : String) : String :=
  ⟨((s.data.dropWhile Char.isWhitespace).reverse.dropWhile
      Char.isWhitespace).reverse⟩

/-- Python `s.startswith(p)`. -/
def py_startswith (p s : String) : Bool := p.data.isPrefixOf s.data

/-- Python `len(s)`. -/
def py_len (s : String) : Nat := s.data.length

/-- Python `s[:n]`. -/
def py_take (n : Nat) (s : String) : String := ⟨s.data.take n⟩

/-- Python `sep.join(l)`. -/
def py_join (sep : String) (l : List String) : String :=
  match l with
  | [] => ""
  | s :: rest => rest.foldl (fun acc x => acc ++ sep ++ x) s

/-! ## The `/add` command and the wallet registry -/

/-- Assignment `d[k] = v` on an insertion-ordered dict modelled as an
association list: an existing key keeps its position and gets the new
value, a new key is appended at the end. -/
def dictSet {α : Type} (k : String) (v : α) :
    List (String × α) → List (String × α)
  | [] => [(k, v)]
  | (k', v') :: rest =>
    if k' = k then (k, v) :: rest else (k', v') :: dictSet k v rest

/-- Lookup `d[k]` on an association list (first matching key). -/
def alookup {α : Type} (k : String) : List (String × α) → Option α
  | [] => none
  | (k', v) :: rest => if k' = k then some v else alookup k rest

/-- Reply produced by `cmd_add`. -/
inductive AddReply where
  | usage
  | invalid
  | added (walletName address : String) (total : Nat)
deriving DecidableEq

/-- The `/add` handler `cmd_add` (source lines 99-125).  The address is
`args[0].strip().lower()`; it is rejected — registry untouched — unless
it starts with `"0x"` AND has at least 10 characters; otherwise the
registry entry is assigned (replacing the display name of an existing
address) and a success reply is produced. -/
def cmd_add (args : List String) (wallets : List (String × String)) :
    List (String × String) × AddReply :=
  match args with
  | [] => (wallets, .usage)
  | a0 :: rest =>
    let address := py_lower (py_strip a0)
    let walletName :=
      if rest ≠ [] then py_join " " rest
      else "Wallet " ++ py_take 8 address
    if ¬ py_startswith "0x" address ∨ py_len address < 10 then
      (wallets, .invalid)
    else
      let w' := dictSet address walletName wallets
      (w', .added walletName address w'.length)

/-! ## The aggregation / summary pass (`generate_wallet_summary`) -/

/-- Per-market aggregate, the value type of the `market_buys` defaultdict
(source lines 274-279).  Python sets are modelled as insertion-ordered
duplicate-free lists. -/
structure MarketData where
  wallets : List String
  wallet_names : List String
  buy_count : Nat
  sell_count : Nat
  total_usdc : ℚ
  prices : List ℚ
  outcomes : List String
  trader_names : List String
deriving DecidableEq

/-- The defaultdict default value (source lines 274-279). -/
def defaultMarketData : MarketData := ⟨[], [], 0, 0, 0, [], [], []⟩

/-- Python `set.add` on the insertion-ordered set model. -/
def insertIfAbsent (x : String) (l : List String) : List String :=
  if x ∈ l then l else l ++ [x]

/-- The per-record mutations of `market_buys[title]` (source lines
300-313): set-add the wallet address, append the display name, add the
notional size, set-add the trader name, append the price when positive,
append the outcome when non-empty, and bump `buy_count` when the
uppercased side is `"BUY"`, else `sell_count` when it is `"SELL"`. -/
def updMarket (addr walletName side : String) (usdc price : ℚ)
    (outcome : String) (d : MarketData) : MarketData :=
  { wallets := insertIfAbsent addr d.wallets
    wallet_names := d.wallet_names ++ [walletName]
    total_usdc := d.total_usdc + usdc
    trader_names := insertIfAbsent walletName d.trader_names
    prices := if price > 0 then d.prices ++ [price] else d.prices
    outcomes := if outcome ≠ "" then d.outcomes ++ [outcome] else d.outcomes
    buy_count :=
      if py_upper side = "BUY" then d.buy_count + 1 else d.buy_count
    sell_count :=
      if py_upper side = "BUY" then d.sell_count
      else if py_upper side = "SELL" then d.sell_count + 1
      else d.sell_count }

/-- `market_buys[title]` access-and-mutate on the insertion-ordered map:
an existing title is updated in place, a missing one is created from the
defaultdict default and appended (CPython dict key order). -/
def mapUpdate (t : String) (f : MarketData → MarketData) :
    List (String × MarketData) → List (String × MarketData)
  | [] => [(t, f defaultMarketData)]
  | (t', d) :: rest =>
    if t' = t then (t', f d) :: rest else (t', d) :: mapUpdate t f rest

/-- Folding one activity record into `(market_buys, total_trades)`
(source lines 286-313).  Non-dict records and non-`"TRADE"` records are
skipped, as are records with a falsy title (missing, empty or null —
`act.get('title', '')` keeps a stored null, which is falsy).  The numeric
conversions raise (`Except.error`) on a non-numeric value, and
`side.upper()` (line 310) raises on a stored-null side; a stored-null
outcome is falsy at line 307 and so never appended.
`generate_wallet_summary` has no `try`, so every such error propagates
and the pass's local `market_buys`/`total_trades` are discarded, which
makes the error result independent of the partial in-place mutations the
source performs before line 310. -/
def summ_fold (addr walletName : String) (act : Activity)
    (st : List (String × MarketData) × Nat) :
    Except Unit (List (String × MarketData) × Nat) :=
  match act with
  | .other => .ok st
  | .record a =>
    if sval_get a.type ≠ some "TRADE" then .ok st
    else
      match sval_getD a.title "" with
      | none => .ok st
      | some title =>
        if title = "" then .ok st
        else
          match py_float a.usdcSize with
          | none => .error ()
          | some u =>
            match py_float a.price with
            | none => .error ()
            | some p =>
              match sval_getD a.side "" with
              | none => .error ()
              | some side =>
                .ok (mapUpdate title
                      (updMarket addr walletName side u p
                        ((sval_getD a.outcome "").getD "")) st.1,
                    st.2 + 1)

/-- The record loop of the summary pass for one wallet. -/
def summ_acts (addr walletName : String) (acts : List Activity)
    (st : List (String × MarketData) × Nat) :
    Except Unit (List (String × MarketData) × Nat) :=
  match acts with
  | [] => .ok st
  | act :: rest =>
    match summ_fold addr walletName act st with
    | .error e => .error e
    | .ok st2 => summ_acts addr walletName rest st2

/-- The wallet loop of the summary pass (source lines 283-315). -/
def agg_wallets (fetch : String → List Activity)
    (wallets : List (String × String))
    (st : List (String × MarketData) × Nat) :
    Except Unit (List (String × MarketData) × Nat) :=
  match wallets with
  | [] => .ok st
  | (addr, walletName) :: rest =>
    match summ_acts addr walletName (fetch addr) st with
    | .error e => .error e
    | .ok st2 => agg_wallets fetch rest st2

/-- The aggregation phase of `generate_wallet_summary`: fold every
wallet's activity into a fresh `market_buys` map and trade counter. -/
def aggregate_markets (wallets : List (String × String))
    (fetch : String → List Activity) :
    Except Unit (List (String × MarketData) × Nat) :=
  agg_wallets fetch wallets ([], 0)

/-- Stable insertion step for the descending sort by `buy_count`: the new
element is placed after every already-placed element with a strictly
larger key and before the first with a smaller-or-equal key, so that
elements with equal keys keep their input order. -/
def insertByBuyDesc (x : String × MarketData) :
    List (String × MarketData) → List (String × MarketData)
  | [] => [x]
  | y :: ys =>
    if x.2.buy_count < y.2.buy_count then y :: insertByBuyDesc x ys
    else x :: y :: ys

/-- The sort of source lines 321-325:
`sorted(market_buys.items(), key=lambda x: x[1]["buy_count"],
reverse=True)` — Python's sort is stable, and `reverse=True` keeps
equal-key elements in input (= encounter) order, which this insertion
formulation reproduces exactly. -/
def sortByBuyDesc : List (String × MarketData) → List (String × MarketData)
  | [] => []
  | x :: xs => insertByBuyDesc x (sortByBuyDesc xs)

/-- Number of occurrences of `s` in `l`. -/
def countOcc (s : String) (l : List String) : Nat :=
  (l.filter (fun x => x = s)).length

/-- First-encounter-ordered list of the distinct elements of `l`
(the key order of a `Counter` / dict built over `l`). -/
def dedupFirst (l : List String) : List String :=
  l.foldl (fun acc s => insertIfAbsent s acc) []

/-- `Counter(l).most_common(1)[0][0]` (source line 350): among the keys in
first-encounter order, the first one with the maximal count (Python's
`most_common` sorts stably by descending count over insertion-ordered
keys). -/
def mostCommonFirst (l : List String) : Option String :=
  (dedupFirst l).foldl
    (fun best k =>
      match best with
      | none => some k
      | some b => if countOcc k l > countOcc b l then some k else best)
    none

/-- One rendered market block of the summary (source lines 335-362),
kept structurally: the 55-character-truncated title, the counters, the
distinct-wallet count, volume, average price, the fire tier (3 for
`buy_count ≥ 5`, 2 for `≥ 3`, 1 for `≥ 2`, else 0), the most common
outcome, and the "who" line `", ".join(data["trader_names"])`. -/
structure Entry where
  title : String
  buyCount : Nat
  sellCount : Nat
  walletCount : Nat
  totalUsdc : ℚ
  avgPrice : ℚ
  fire : Nat
  topOutcome : Option String
  who : String
deriving DecidableEq

/-- Builds the rendered block for one sorted market (source lines
335-362). -/
def mkEntry (td : String × MarketData) : Entry :=
  let d := td.2
  { title := py_take 55 td.1
    buyCount := d.buy_count
    sellCount := d.sell_count
    walletCount := d.wallets.length
    totalUsdc := d.total_usdc
    avgPrice :=
      if d.prices.isEmpty then 0 else d.prices.sum / (d.prices.length : ℚ)
    fire :=
      if d.buy_count ≥ 5 then 3
      else if d.buy_count ≥ 3 then 2
      else if d.buy_count ≥ 2 then 1
      else 0
    topOutcome := mostCommonFirst d.outcomes
    who := py_join ", " d.trader_names }

/-- The ranked, truncated entry list of the summary: the stable
descending sort, sliced to the top 15 (`sorted_markets[:15]`, source line
335). -/
def summary_entries (m : List (String × MarketData)) : List Entry :=
  ((sortByBuyDesc m).take 15).map mkEntry

/-- The summary message, kept structurally: header metadata plus the
ranked entries. -/
structure Report where
  walletCount : Nat
  totalTrades : Nat
  entries : List Entry
deriving DecidableEq

/-- `generate_wallet_summary` (source lines 272-364): aggregate, then
return `""` — modelled as `none` — when `market_buys` is empty, else the
ranked report.  An exception from a numeric conversion propagates. -/
def generate_wallet_summary (wallets : List (String × String))
    (fetch : String → List Activity) : Except Unit (Option Report) :=
  match aggregate_markets wallets fetch with
  | .error e => .error e
  | .ok (m, total) =>
    .ok (if m.isEmpty then none
         else some ⟨wallets.length, total, summary_entries m⟩)

/-- `periodic_summary` (source lines 377-388): the message delivered to
the channel, `none` when nothing is sent — either because the summary was
empty/falsy or because `generate_wallet_summary` raised (the surrounding
`try` catches and only logs). -/
def periodic_summary_msg (wallets : List (String × String))
    (fetch : String → List Activity) : Option Report :=
  match generate_wallet_summary wallets fetch with
  | .ok (some r) => some r
  | _ => none

/-- Modelled from the spec (for comparison with the code in claim C8):
"the joined list of trader display names (as accumulated, duplicates
included) for the who line" — that is, a join of the `wallet_names` list
rather than of the `trader_names` set. -/
def spec_who_line (d : MarketData) : String :=
  py_join ", " d.wallet_names

/-! ## The scheduler (`run`) -/

/-- Source line 49. -/
def CHECK_INTERVAL : Nat := 30

/-- Source line 50. -/
def SUMMARY_INTERVAL_HOURS : Nat := 1

/-- The two periodic callbacks defined by the tracker (source lines
370-388). -/
inductive JobHandler where
  | periodic_check
  | periodic_summary
deriving DecidableEq

/-- A repeating job registered on the Telegram job queue:
`run_repeating(handler, interval, first)`. -/
structure Job where
  handler : JobHandler
  interval : Nat
  first : Nat
deriving DecidableEq

/-- The repeating jobs that `run` registers (source lines 412-418): a
single `run_repeating` call for `periodic_summary`, every
`SUMMARY_INTERVAL_HOURS * 3600` seconds with a first run after 60
seconds.  No job for `periodic_check` / `check_new_trades` is ever
registered. -/
def scheduled_jobs : List Job :=
  [⟨.periodic_summary, SUMMARY_INTERVAL_HOURS * 3600, 60⟩]

/-- A record is qualifying for the aggregation pass when it is a dict of
type `"TRADE"` with a truthy title (source lines 287-292); a missing,
null or empty title is falsy. -/
def isQualifying : Activity → Bool
  | .other => false
  | .record a =>
    sval_get a.type = some "TRADE" &&
      match sval_getD a.title "" with
      | none => false
      | some t => t ≠ ""

/-- A record the aggregation fold cannot raise on: both numeric fields
convert, and `side` is not a stored null/non-string — `side.upper()`
(line 310) is evaluated for every folded record and raises
`AttributeError` on `None`. -/
def foldSafe : Activity → Bool
  | .other => true
  | .record a =>
    (py_float a.usdcSize).isSome && (py_float a.price).isSome &&
      !(sval_getD a.side "").isNone

/-! ## Concrete inputs used by counterexamples and witnesses -/

/-- Concrete input for claim C8: one wallet making two BUY trades of size
10 at price 1 on the same market. -/
def c8_trade (h : String) : Activity :=
  .record ⟨.str "TRADE", .str h, .str "BUY", .str "M", .str "Yes",
    .num 10, .num 1⟩

/-- Concrete activity environment for claim C8. -/
def c8_fetch : String → List Activity := fun _ => [c8_trade "h1", c8_trade "h2"]

/-- Concrete input for claim C7: a TRADE record whose `usdcSize` field
holds a non-numeric string, so `float(...)` raises. -/
def c7_bad : Activity :=
  .record ⟨.str "TRADE", .str "hb", .str "BUY", .str "T", .str "Yes",
    .strv none, .num 1⟩

/-- Concrete input for claim C7: a well-formed TRADE record. -/
def c7_good : Activity :=
  .record ⟨.str "TRADE", .str "hg", .str "BUY", .str "T", .str "Yes",
    .num 5, .num 1⟩

/-- Concrete input for claim C7: a TRADE record whose title is a stored
null — the notification goes out (title rendered `"None"`) and then
`title[:40]` in the post-send print raises. -/
def c7_nulltitle : Activity :=
  .record ⟨.str "TRADE", .str "ht", .str "BUY", .nullv, .absent,
    .num 1, .num 1⟩

/-- Concrete input for claim C5: a qualifying TRADE record whose side is
a stored null, so `side.upper()` raises during the fold. -/
def c5_nullside : Activity :=
  .record ⟨.str "TRADE", .str "h1", .nullv, .str "M", .absent,
    .num 7, .num 1⟩

/-- Concrete distinct transaction hashes for claims C1/C2: the string of
`i + 1` letters `a`. -/
def fHash (i : Nat) : String := ⟨List.replicate (i + 1) 'a'⟩

/-- A further hash, distinct from every `fHash i`. -/
def dupHash : String := "d"

/-- A well-formed TRADE record carrying the given transaction hash. -/
def cexTrade (h : String) : Activity :=
  .record ⟨.str "TRADE", .str h, .str "BUY", .str "T", .str "Yes",
    .num 1, .num 1⟩

/-- The notification `cexTrade x` produces for wallet `walletName`. -/
def cexNotifOf (walletName x : String) : Notif :=
  ⟨x, "BUY", walletName, "T", "Yes", 1, 1⟩

/-- 2001 distinct fresh hashes — enough to push `seen_txs` past 2000. -/
def hashList : List String := (List.range 2001).map fHash

/-- Activity environment delivering one TRADE per hash of `hashList`. -/
def bigFetch : String → List Activity := fun _ => hashList.map cexTrade

/-- Activity environment delivering a single TRADE with hash `dupHash`. -/
def dupFetch : String → List Activity := fun _ => [cexTrade dupHash]

/-! ## Association-list (dict) lemmas -/

theorem alookup_dictSet_self {α : Type} (k : String) (v : α)
    (l : List (String × α)) : alookup k (dictSet k v l) = some v := by
  induction l with
  | nil => simp [dictSet, alookup]
  | cons p rest ih =>
    by_cases hp : p.1 = k
    · simp [dictSet, hp, alookup]
    · simpa [dictSet, hp, alookup] using ih

theorem alookup_dictSet_ne {α : Type} (k k' : String) (v : α)
    (l : List (String × α)) (hne : k' ≠ k) :
    alookup k' (dictSet k v l) = alookup k' l := by
  induction l with
  | nil => simp [dictSet, alookup, Ne.symm hne]
  | cons p rest ih =>
    by_cases hp : p.1 = k
    · simp [dictSet, hp, alookup, Ne.symm hne]
    · simp [dictSet, hp, alookup]
      split
      · rfl
      · exact ih

theorem dictSet_map_fst_of_mem {α : Type} (k : String) (v : α)
    (l : List (String × α)) (hmem : k ∈ l.map Prod.fst) :
    (dictSet k v l).map Prod.fst = l.map Prod.fst := by
  induction l with
  | nil => simp at hmem
  | cons p rest ih =>
    by_cases hp : p.1 = k
    · simp [dictSet, hp]
    · simp [dictSet, hp]
      apply ih
      rcases List.mem_map.1 hmem with ⟨q, hq, hqk⟩
      rcases List.mem_cons.1 hq with rfl | hq'
      · exact absurd hqk hp
      · exact List.mem_map.2 ⟨q, hq', hqk⟩

/-! ## Claim C3: scheduling -/

/-- Claim C3, counterexample: the claim states that the short-cycle
notification pass (`periodic_check` running `check_new_trades`) is
scheduled to execute repeatedly for every run of the program, but the
only `run_repeating` call in `run` registers `periodic_summary`; no
scheduled job has the `periodic_check` handler. -/
theorem no_short_cycle_scheduled_cex :
    ¬ ∃ j ∈ scheduled_jobs, j.handler = JobHandler.periodic_check := by
  decide

/-- Claim C3, amended: `run` registers exactly one repeating job — the
summary pass `periodic_summary`, with interval
`SUMMARY_INTERVAL_HOURS * 3600 = 3600` seconds and a first run after 60
seconds; `periodic_check`/`check_new_trades` is defined but never
scheduled. -/
theorem single_scheduled_job :
    scheduled_jobs = [⟨JobHandler.periodic_summary, 3600, 60⟩] := by
  decide

/-! ## Claim C6: address validation in `cmd_add` -/

/-- Claim C6, counterexample: the claim (and the spec's own worked
example) says the address `"0XAb12"` is accepted and stored as
`"0xab12"`, because after lowercasing it is non-empty and starts with
`"0x"`.  The code additionally requires `len(address) >= 10`, so
`"0XAb12"` (6 characters) is rejected and the registry is left
unchanged. -/
theorem add_short_address_rejected_cex :
    py_startswith "0x" (py_lower (py_strip "0XAb12")) = true ∧
    py_lower (py_strip "0XAb12") = "0xab12" ∧
    cmd_add ["0XAb12"] [] = ([], AddReply.invalid) := by
  refine ⟨by decide, by decide, by decide⟩

/-- Claim C6, amended: `cmd_add` accepts the first argument iff, after
stripping and lowercasing, it starts with `"0x"` AND has at least 10
characters; an accepted address is stored in that normalized form via a
dict assignment, and a rejected one yields the invalid reply with the
registry unchanged. -/
theorem add_validation (a0 : String) (rest : List String)
    (wallets : List (String × String)) :
    (py_startswith "0x" (py_lower (py_strip a0)) = true →
      10 ≤ py_len (py_lower (py_strip a0)) →
      cmd_add (a0 :: rest) wallets =
        (dictSet (py_lower (py_strip a0))
          (if rest ≠ [] then py_join " " rest
           else "Wallet " ++ py_take 8 (py_lower (py_strip a0))) wallets,
         AddReply.added
          (if rest ≠ [] then py_join " " rest
           else "Wallet " ++ py_take 8 (py_lower (py_strip a0)))
          (py_lower (py_strip a0))
          (dictSet (py_lower (py_strip a0))
            (if rest ≠ [] then py_join " " rest
             else "Wallet " ++ py_take 8 (py_lower (py_strip a0)))
            wallets).length)) ∧
    ((py_startswith "0x" (py_lower (py_strip a0)) = false ∨
        py_len (py_lower (py_strip a0)) < 10) →
      cmd_add (a0 :: rest) wallets = (wallets, AddReply.invalid)) := by
  constructor
  · intro h0x hlen
    simp [cmd_add, h0x, Nat.not_lt.2 hlen]
  · intro hrej
    rcases hrej with h0x | hlen
    · simp [cmd_add, h0x]
    · simp [cmd_add, hlen]

/-- Claim C6, witness: a long enough mixed-case address is accepted and
stored lowercased, exercising the accepting branch of `add_validation`. -/
theorem add_validation_w :
    cmd_add ["0XAB12345678"] [] =
      (dictSet "0xab12345678" ("Wallet " ++ py_take 8 "0xab12345678") [],
       AddReply.added ("Wallet " ++ py_take 8 "0xab12345678") "0xab12345678"
        (dictSet "0xab12345678"
          ("Wallet " ++ py_take 8 "0xab12345678") []).length) := by
  have h := (add_validation "0XAB12345678" [] []).1 (by decide) (by decide)
  simpa using h

/-! ## Claim C10: `cmd_add` on an address already in the registry -/

/-- Claim C10, counterexample: the claim states that calling `add` with
an address already in the registry silently replaces its display name and
reports success, for every registry entry.  The registry can hold
addresses shorter than 10 characters (the startup loaders only check the
`"0x"` head), and for such an entry `cmd_add` rejects the update: the
name is not replaced and the reply is an error. -/
theorem add_existing_invalid_cex :
    ("0xabc", "Old") ∈ [("0xabc", "Old")] ∧
    cmd_add ["0xabc", "NewName"] [("0xabc", "Old")] =
      ([("0xabc", "Old")], AddReply.invalid) ∧
    alookup "0xabc" (cmd_add ["0xabc", "NewName"] [("0xabc", "Old")]).1 =
      some "Old" := by
  refine ⟨by decide, by decide, by decide⟩

/-- Claim C10, amended: calling `add` with an argument whose normalized
form starts with `"0x"`, has at least 10 characters and equals a key
already in the registry replaces that key's display name with the new
one, reports success (the added reply, not an error), leaves every other
entry unchanged and keeps the key sequence — hence the wallet count —
unchanged. -/
theorem add_existing_replaces (a0 : String) (rest : List String)
    (wallets : List (String × String))
    (h0x : py_startswith "0x" (py_lower (py_strip a0)) = true)
    (hlen : 10 ≤ py_len (py_lower (py_strip a0)))
    (hmem : py_lower (py_strip a0) ∈ wallets.map Prod.fst) :
    (cmd_add (a0 :: rest) wallets).1.map Prod.fst = wallets.map Prod.fst ∧
    (cmd_add (a0 :: rest) wallets).1.length = wallets.length ∧
    alookup (py_lower (py_strip a0)) (cmd_add (a0 :: rest) wallets).1 =
      some (if rest ≠ [] then py_join " " rest
            else "Wallet " ++ py_take 8 (py_lower (py_strip a0))) ∧
    (∀ k, k ≠ py_lower (py_strip a0) →
      alookup k (cmd_add (a0 :: rest) wallets).1 = alookup k wallets) ∧
    (cmd_add (a0 :: rest) wallets).2 =
      AddReply.added
        (if rest ≠ [] then py_join " " rest
         else "Wallet " ++ py_take 8 (py_lower (py_strip a0)))
        (py_lower (py_strip a0)) wallets.length := by
  have hadd := (add_validation a0 rest wallets).1 h0x hlen
  have hkeys := dictSet_map_fst_of_mem (py_lower (py_strip a0))
    (if rest ≠ [] then py_join " " rest
     else "Wallet " ++ py_take 8 (py_lower (py_strip a0))) wallets hmem
  have hlength : (dictSet (py_lower (py_strip a0))
      (if rest ≠ [] then py_join " " rest
       else "Wallet " ++ py_take 8 (py_lower (py_strip a0)))
      wallets).length = wallets.length := by
    have := congrArg List.length hkeys
    simpa using this
  refine ⟨?_, ?_, ?_, ?_, ?_⟩
  · rw [hadd]; exact hkeys
  · rw [hadd]; exact hlength
  · rw [hadd]; exact alookup_dictSet_self _ _ _
  · intro k hk
    rw [hadd]
    exact alookup_dictSet_ne _ _ _ _ hk
  · rw [hadd]
    exact congrArg (AddReply.added _ _) hlength

/-- Claim C10, witness: replacing the name of an existing valid address
keeps the other entry and the count, and reports success. -/
theorem add_existing_replaces_w :
    (cmd_add ["0xabcdef1234", "New"]
      [("0xabcdef1234", "Old"), ("0xother00001", "B")]).1.length = 2 ∧
    alookup "0xabcdef1234"
      (cmd_add ["0xabcdef1234", "New"]
        [("0xabcdef1234", "Old"), ("0xother00001", "B")]).1 = some "New" ∧
    alookup "0xother00001"
      (cmd_add ["0xabcdef1234", "New"]
        [("0xabcdef1234", "Old"), ("0xother00001", "B")]).1 = some "B" := by
  have h := add_existing_replaces "0xabcdef1234" ["New"]
    [("0xabcdef1234", "Old"), ("0xother00001", "B")]
    (by decide) (by decide) (by decide)
  refine ⟨by simpa using h.2.1, ?_, ?_⟩
  · have := h.2.2.1
    simpa using this
  · have := h.2.2.2.1 "0xother00001" (by decide)
    simpa using this

/-! ## Claim C9: empty aggregate yields an empty report and no message -/

theorem summ_fold_nonqual (addr walletName : String) (act : Activity)
    (st : List (String × MarketData) × Nat)
    (h : isQualifying act = false) :
    summ_fold addr walletName act st = .ok st := by
  cases act with
  | other => rfl
  | record a =>
    by_cases ht : sval_get a.type = some "TRADE"
    · rcases htt : sval_getD a.title "" with _ | t
      · simp [summ_fold, ht, htt]
      · have htitle : t = "" := by
          simp [isQualifying, ht, htt] at h
          exact h
        simp [summ_fold, ht, htt, htitle]
    · simp [summ_fold, ht]

theorem summ_acts_nonqual (addr walletName : String) (acts : List Activity)
    (st : List (String × MarketData) × Nat)
    (h : ∀ a ∈ acts, isQualifying a = false) :
    summ_acts addr walletName acts st = .ok st := by
  induction acts generalizing st with
  | nil => rfl
  | cons act rest ih =>
    have h1 := h act (List.mem_cons_self _ _)
    have h2 : ∀ a ∈ rest, isQualifying a = false :=
      fun a ha => h a (List.mem_cons_of_mem _ ha)
    simp [summ_acts, summ_fold_nonqual addr walletName act st h1, ih st h2]

theorem agg_wallets_nonqual (fetch : String → List Activity)
    (wallets : List (String × String))
    (st : List (String × MarketData) × Nat)
    (h : ∀ w ∈ wallets, ∀ a ∈ fetch w.1, isQualifying a = false) :
    agg_wallets fetch wallets st = .ok st := by
  induction wallets generalizing st with
  | nil => rfl
  | cons w rest ih =>
    have h1 := h w (List.mem_cons_self _ _)
    have h2 : ∀ w' ∈ rest, ∀ a ∈ fetch w'.1, isQualifying a = false :=
      fun w' hw' => h w' (List.mem_cons_of_mem _ hw')
    cases w with
    | mk addr walletName =>
      simp [agg_wallets, summ_acts_nonqual addr walletName (fetch addr) st h1,
        ih st h2]

/-- Claim C9: when no wallet's fetched records contain a qualifying trade
(a dict of type `"TRADE"` with a truthy title), the aggregation map stays
empty, `generate_wallet_summary` returns the empty report (`""`, here
`none`), and `periodic_summary` delivers no message to the channel. -/
theorem empty_aggregate_no_message (wallets : List (String × String))
    (fetch : String → List Activity)
    (h : ∀ w ∈ wallets, ∀ a ∈ fetch w.1, isQualifying a = false) :
    generate_wallet_summary wallets fetch = .ok none ∧
    periodic_summary_msg wallets fetch = none := by
  have hagg : aggregate_markets wallets fetch = .ok ([], 0) :=
    agg_wallets_nonqual fetch wallets ([], 0) h
  constructor
  · simp [generate_wallet_summary, hagg]
  · simp [periodic_summary_msg, generate_wallet_summary, hagg]

/-- Claim C9, witness: a pass over one wallet returning a non-dict value,
a titleless trade and a non-trade record sends nothing. -/
theorem empty_aggregate_no_message_w :
    generate_wallet_summary [("0xw", "W")]
      (fun _ => [Activity.other,
        Activity.record ⟨SVal.str "TRADE", SVal.str "h1", SVal.str "BUY",
          SVal.nullv, SVal.absent, JVal.num 1, JVal.num 1⟩,
        Activity.record ⟨SVal.str "REDEEM", SVal.str "h2", SVal.str "BUY",
          SVal.str "T", SVal.absent, JVal.num 1, JVal.num 1⟩]) = .ok none ∧
    periodic_summary_msg [("0xw", "W")]
      (fun _ => [Activity.other,
        Activity.record ⟨SVal.str "TRADE", SVal.str "h1", SVal.str "BUY",
          SVal.nullv, SVal.absent, JVal.num 1, JVal.num 1⟩,
        Activity.record ⟨SVal.str "REDEEM", SVal.str "h2", SVal.str "BUY",
          SVal.str "T", SVal.absent, JVal.num 1, JVal.num 1⟩]) = none :=
  empty_aggregate_no_message _ _ (by decide)

/-! ## Claim C5: per-record aggregation updates -/

theorem insertIfAbsent_mem (x a : String) (l : List String) :
    x ∈ insertIfAbsent a l ↔ x ∈ l ∨ x = a := by
  by_cases h : a ∈ l
  · simp only [insertIfAbsent, if_pos h]
    constructor
    · exact Or.inl
    · rintro (hx | rfl)
      · exact hx
      · exact h
  · simp [insertIfAbsent, if_neg h]

theorem alookup_mapUpdate_self (t : String) (f : MarketData → MarketData)
    (m : List (String × MarketData)) :
    alookup t (mapUpdate t f m) =
      some (f ((alookup t m).getD defaultMarketData)) := by
  induction m with
  | nil => simp [mapUpdate, alookup]
  | cons p rest ih =>
    by_cases hp : p.1 = t
    · simp [mapUpdate, hp, alookup]
    · simp [mapUpdate, hp, alookup, ih]

theorem alookup_mapUpdate_ne (t t' : String) (f : MarketData → MarketData)
    (m : List (String × MarketData)) (hne : t' ≠ t) :
    alookup t' (mapUpdate t f m) = alookup t' m := by
  induction m with
  | nil => simp [mapUpdate, alookup, Ne.symm hne]
  | cons p rest ih =>
    by_cases hp : p.1 = t
    · simp [mapUpdate, hp, alookup, Ne.symm hne]
    · simp [mapUpdate, hp, alookup]
      split
      · rfl
      · exact ih

/-- Claim C5, counterexample: the claim says any side other than
`"BUY"`/`"SELL"` leaves both counters unchanged while the record is still
folded.  For a qualifying TRADE record whose side is a stored null,
`side.upper()` (line 310) raises `AttributeError` instead: the record is
not folded and the whole summary pass aborts. -/
theorem fold_null_side_aborts_cex :
    isQualifying c5_nullside = true ∧
    summ_fold "0xa" "Alpha" c5_nullside ([], 0) = .error () ∧
    generate_wallet_summary [("0xa", "Alpha")] (fun _ => [c5_nullside]) =
      .error () := by
  exact ⟨rfl, rfl, rfl⟩

/-- Claim C5, amended: folding a qualifying TRADE record (truthy title,
convertible numeric fields, and a side that is a present string or a
missing key — not a stored null, which raises instead) increments the
total trade counter and updates exactly the record's market aggregate:
the wallet address is set-added, the display name is appended to the name
list and set-added to the trader names, the notional size is added to the
total volume, the price is appended iff positive, the outcome is appended
iff a non-empty string, buyCount is bumped iff the uppercased side is
`"BUY"` and sellCount iff it is `"SELL"` (any other string side
increments neither); every other market is unchanged. -/
theorem fold_trade_updates (addr walletName : String) (a : ActRecord)
    (m : List (String × MarketData)) (total : Nat) (u p : ℚ)
    (t sideStr : String)
    (htype : sval_get a.type = some "TRADE")
    (htitle : sval_getD a.title "" = some t) (ht : t ≠ "")
    (hu : py_float a.usdcSize = some u) (hp : py_float a.price = some p)
    (hside : sval_getD a.side "" = some sideStr) :
    ∃ m' d',
      summ_fold addr walletName (.record a) (m, total) = .ok (m', total + 1) ∧
      alookup t m' = some d' ∧
      (∀ x, x ∈ d'.wallets ↔
        x ∈ ((alookup t m).getD defaultMarketData).wallets ∨
        x = addr) ∧
      d'.wallet_names =
        ((alookup t m).getD defaultMarketData).wallet_names
          ++ [walletName] ∧
      (∀ x, x ∈ d'.trader_names ↔
        x ∈ ((alookup t m).getD
              defaultMarketData).trader_names ∨ x = walletName) ∧
      d'.total_usdc =
        ((alookup t m).getD defaultMarketData).total_usdc
          + u ∧
      d'.prices =
        (if p > 0 then
          ((alookup t m).getD defaultMarketData).prices ++ [p]
         else ((alookup t m).getD
                defaultMarketData).prices) ∧
      d'.outcomes =
        (if (sval_getD a.outcome "").getD "" ≠ "" then
          ((alookup t m).getD defaultMarketData).outcomes
            ++ [(sval_getD a.outcome "").getD ""]
         else ((alookup t m).getD
                defaultMarketData).outcomes) ∧
      d'.buy_count =
        (if py_upper sideStr = "BUY" then
          ((alookup t m).getD
            defaultMarketData).buy_count + 1
         else ((alookup t m).getD
                defaultMarketData).buy_count) ∧
      d'.sell_count =
        (if py_upper sideStr = "SELL" then
          ((alookup t m).getD
            defaultMarketData).sell_count + 1
         else ((alookup t m).getD
                defaultMarketData).sell_count) ∧
      (∀ t', t' ≠ t → alookup t' m' = alookup t' m) := by
  refine ⟨mapUpdate t
    (updMarket addr walletName sideStr u p ((sval_getD a.outcome "").getD ""))
    m,
    updMarket addr walletName sideStr u p ((sval_getD a.outcome "").getD "")
      ((alookup t m).getD defaultMarketData), ?_, ?_, ?_,
    ?_, ?_, ?_, ?_, ?_, ?_, ?_, ?_⟩
  · simp [summ_fold, htype, htitle, ht, hu, hp, hside]
  · exact alookup_mapUpdate_self _ _ _
  · intro x
    simp [updMarket, insertIfAbsent_mem]
  · simp [updMarket]
  · intro x
    simp [updMarket, insertIfAbsent_mem]
  · simp [updMarket]
  · simp [updMarket]
  · simp [updMarket]
  · simp [updMarket]
  · by_cases hbuy : py_upper sideStr = "BUY"
    · have hns : py_upper sideStr ≠ "SELL" := by
        rw [hbuy]; decide
      simp [updMarket, hbuy, hns]
    · simp [updMarket, hbuy]
  · intro t' ht'
    exact alookup_mapUpdate_ne _ _ _ _ ht'

/-- Claim C5, witness: folding a concrete SELL trade into an empty map
exhibits every clause of `fold_trade_updates`. -/
theorem fold_trade_updates_w :
    ∃ m' d',
      summ_fold "0xa" "Alpha"
        (.record ⟨SVal.str "TRADE", SVal.str "h1", SVal.str "sell",
          SVal.str "M", SVal.str "Yes", JVal.num 7, JVal.num 1⟩)
        ([], 0) = .ok (m', 0 + 1) ∧
      alookup "M" m' = some d' ∧
      (∀ x, x ∈ d'.wallets ↔ x ∈ defaultMarketData.wallets ∨ x = "0xa") ∧
      d'.wallet_names = defaultMarketData.wallet_names ++ ["Alpha"] ∧
      (∀ x, x ∈ d'.trader_names ↔
        x ∈ defaultMarketData.trader_names ∨ x = "Alpha") ∧
      d'.total_usdc = defaultMarketData.total_usdc + 7 ∧
      d'.prices =
        (if (1 : ℚ) > 0 then defaultMarketData.prices ++ [1]
         else defaultMarketData.prices) ∧
      d'.buy_count =
        (if py_upper "sell" = "BUY" then defaultMarketData.buy_count + 1
         else defaultMarketData.buy_count) ∧
      d'.sell_count =
        (if py_upper "sell" = "SELL" then defaultMarketData.sell_count + 1
         else defaultMarketData.sell_count) ∧
      (∀ t', t' ≠ "M" →
        alookup t' m' = alookup t' ([] : List (String × MarketData))) := by
  have h := fold_trade_updates "0xa" "Alpha"
    ⟨SVal.str "TRADE", SVal.str "h1", SVal.str "sell", SVal.str "M",
      SVal.str "Yes", JVal.num 7, JVal.num 1⟩ [] 0 7 1 "M" "sell"
    (by decide) (by decide) (by decide) rfl rfl (by decide)
  rcases h with ⟨m', d', h1, h2, h3, h4, h5, h6, h7, _, h9, h10, h11⟩
  exact ⟨m', d', h1, h2, h3, h4, h5, h6, h7, h9, h10, h11⟩

/-! ## Claim C4: summary ranking is a stable descending sort, cut at 15 -/

theorem insertByBuyDesc_perm (x : String × MarketData)
    (l : List (String × MarketData)) :
    (insertByBuyDesc x l).Perm (x :: l) := by
  induction l with
  | nil => simp [insertByBuyDesc]
  | cons y ys ih =>
    by_cases hc : x.2.buy_count < y.2.buy_count
    · simp only [insertByBuyDesc, if_pos hc]
      exact (ih.cons y).trans (List.Perm.swap x y ys)
    · simp [insertByBuyDesc, if_neg hc]

theorem sortByBuyDesc_perm (l : List (String × MarketData)) :
    (sortByBuyDesc l).Perm l := by
  induction l with
  | nil => simp [sortByBuyDesc]
  | cons x xs ih =>
    exact (insertByBuyDesc_perm x (sortByBuyDesc xs)).trans (ih.cons x)

theorem insertByBuyDesc_sorted (x : String × MarketData)
    (l : List (String × MarketData))
    (hl : List.Pairwise
      (fun a b : String × MarketData => b.2.buy_count ≤ a.2.buy_count) l) :
    List.Pairwise
      (fun a b : String × MarketData => b.2.buy_count ≤ a.2.buy_count)
      (insertByBuyDesc x l) := by
  induction l with
  | nil => simp [insertByBuyDesc]
  | cons y ys ih =>
    rcases List.pairwise_cons.1 hl with ⟨hy, hys⟩
    by_cases hc : x.2.buy_count < y.2.buy_count
    · simp only [insertByBuyDesc, if_pos hc]
      refine List.pairwise_cons.2 ⟨?_, ih hys⟩
      intro z hz
      have hz' : z ∈ x :: ys := (insertByBuyDesc_perm x ys).mem_iff.1 hz
      rcases List.mem_cons.1 hz' with rfl | hz''
      · exact Nat.le_of_lt hc
      · exact hy z hz''
    · simp only [insertByBuyDesc, if_neg hc]
      refine List.pairwise_cons.2 ⟨?_, hl⟩
      intro z hz
      rcases List.mem_cons.1 hz with rfl | hz'
      · exact Nat.le_of_not_lt hc
      · exact le_trans (hy z hz') (Nat.le_of_not_lt hc)

theorem sortByBuyDesc_sorted (l : List (String × MarketData)) :
    List.Pairwise
      (fun a b : String × MarketData => b.2.buy_count ≤ a.2.buy_count)
      (sortByBuyDesc l) := by
  induction l with
  | nil => simp [sortByBuyDesc]
  | cons x xs ih => exact insertByBuyDesc_sorted x (sortByBuyDesc xs) ih

theorem insertByBuyDesc_filter (x : String × MarketData)
    (l : List (String × MarketData)) (k : Nat) :
    (insertByBuyDesc x l).filter (fun td => td.2.buy_count = k) =
      (if x.2.buy_count = k then
        x :: l.filter (fun td => td.2.buy_count = k)
       else l.filter (fun td => td.2.buy_count = k)) := by
  induction l with
  | nil =>
    by_cases hk : x.2.buy_count = k
    · simp [insertByBuyDesc, List.filter_cons, hk]
    · simp [insertByBuyDesc, List.filter_cons, hk]
  | cons y ys ih =>
    by_cases hc : x.2.buy_count < y.2.buy_count
    · simp only [insertByBuyDesc, if_pos hc]
      by_cases hk : x.2.buy_count = k
      · have hyk : ¬ y.2.buy_count = k := by
          subst hk
          exact Nat.ne_of_gt hc
        simp [List.filter_cons, hyk, ih, hk]
      · simp [List.filter_cons, ih, hk]
    · simp only [insertByBuyDesc, if_neg hc]
      by_cases hk : x.2.buy_count = k
      · simp [List.filter_cons, hk]
      · simp [List.filter_cons, hk]

theorem sortByBuyDesc_filter (l : List (String × MarketData)) (k : Nat) :
    (sortByBuyDesc l).filter (fun td => td.2.buy_count = k) =
      l.filter (fun td => td.2.buy_count = k) := by
  induction l with
  | nil => rfl
  | cons x xs ih =>
    by_cases hk : x.2.buy_count = k
    · simp [sortByBuyDesc, insertByBuyDesc_filter, hk, List.filter_cons, ih]
    · simp [sortByBuyDesc, insertByBuyDesc_filter, hk, List.filter_cons, ih]

/-- Claim C4: the ranked summary holds at most 15 entries, sorted by
buyCount descending; the underlying sort is a permutation of the
encounter-ordered aggregation map that preserves, for every key value,
the relative (encounter) order of equal-key markets — i.e. it is
stable. -/
theorem summary_ranking_sorted_stable_bounded
    (m : List (String × MarketData)) :
    (summary_entries m).length ≤ 15 ∧
    List.Pairwise (fun a b : Entry => b.buyCount ≤ a.buyCount)
      (summary_entries m) ∧
    (sortByBuyDesc m).Perm m ∧
    ∀ k, (sortByBuyDesc m).filter (fun td => td.2.buy_count = k) =
      m.filter (fun td => td.2.buy_count = k) := by
  refine ⟨?_, ?_, sortByBuyDesc_perm m, sortByBuyDesc_filter m⟩
  · simp only [summary_entries, List.length_map, List.length_take]
    exact min_le_left _ _
  · have hsorted := sortByBuyDesc_sorted m
    have htake := hsorted.sublist (List.take_sublist 15 _)
    simp only [summary_entries]
    exact List.pairwise_map.2 htake

/-! ## Claim C8: the "who" line of a summarized market -/

/-- Claim C8, counterexample: with one wallet named `"Alpha"` making two
trades on the same market, the accumulated display-name list is
`["Alpha", "Alpha"]` and the claim's who line (duplicates included) would
be `"Alpha, Alpha"`; the code joins the `trader_names` SET instead and
renders `"Alpha"`. -/
theorem who_line_dedup_cex :
    (aggregate_markets [("0xa", "Alpha")] c8_fetch).map
      (fun st => st.1.map (fun td => (td.2.wallet_names, td.2.trader_names)))
      = .ok [(["Alpha", "Alpha"], ["Alpha"])] ∧
    (generate_wallet_summary [("0xa", "Alpha")] c8_fetch).map
      (fun o => o.map (fun r => r.entries.map (fun e => e.who)))
      = .ok (some ["Alpha"]) ∧
    (aggregate_markets [("0xa", "Alpha")] c8_fetch).map
      (fun st => st.1.map (fun td => spec_who_line td.2))
      = .ok ["Alpha, Alpha"] ∧
    ("Alpha" : String) ≠ "Alpha, Alpha" := by
  refine ⟨rfl, rfl, rfl, by decide⟩

theorem dedupFirst_append_singleton (l : List String) (x : String) :
    dedupFirst (l ++ [x]) = insertIfAbsent x (dedupFirst l) := by
  simp [dedupFirst, List.foldl_append]

theorem updMarket_trader_names_inv (addr walletName side : String)
    (usdc price : ℚ) (outcome : String) (d : MarketData)
    (h : d.trader_names = dedupFirst d.wallet_names) :
    (updMarket addr walletName side usdc price outcome d).trader_names =
      dedupFirst
        (updMarket addr walletName side usdc price outcome d).wallet_names := by
  simp [updMarket, dedupFirst_append_singleton, h]

theorem mapUpdate_trader_names_inv (t : String)
    (f : MarketData → MarketData) (m : List (String × MarketData))
    (hf : ∀ d, d.trader_names = dedupFirst d.wallet_names →
      (f d).trader_names = dedupFirst (f d).wallet_names)
    (hm : ∀ td ∈ m, td.2.trader_names = dedupFirst td.2.wallet_names) :
    ∀ td ∈ mapUpdate t f m,
      td.2.trader_names = dedupFirst td.2.wallet_names := by
  induction m with
  | nil =>
    intro td htd
    simp [mapUpdate] at htd
    subst htd
    exact hf defaultMarketData rfl
  | cons p rest ih =>
    intro td htd
    by_cases hp : p.1 = t
    · simp [mapUpdate, hp] at htd
      rcases htd with htd | htd
      · subst htd
        exact hf p.2 (hm p (List.mem_cons_self _ _))
      · exact hm td (List.mem_cons_of_mem _ htd)
    · simp only [mapUpdate, if_neg hp, List.mem_cons] at htd
      rcases htd with htd | htd
      · subst htd
        exact hm p (List.mem_cons_self _ _)
      · exact ih (fun q hq => hm q (List.mem_cons_of_mem _ hq)) td htd

theorem summ_fold_trader_names_inv (addr walletName : String)
    (act : Activity) (st st' : List (String × MarketData) × Nat)
    (h : summ_fold addr walletName act st = .ok st')
    (hm : ∀ td ∈ st.1, td.2.trader_names = dedupFirst td.2.wallet_names) :
    ∀ td ∈ st'.1, td.2.trader_names = dedupFirst td.2.wallet_names := by
  cases act with
  | other =>
    simp [summ_fold] at h
    subst h
    exact hm
  | record a =>
    by_cases htype : sval_get a.type = some "TRADE"
    · rcases htt : sval_getD a.title "" with _ | t
      · simp [summ_fold, htype, htt] at h
        subst h
        exact hm
      · by_cases htitle : t = ""
        · simp [summ_fold, htype, htt, htitle] at h
          subst h
          exact hm
        · rcases hu : py_float a.usdcSize with _ | u
          · simp [summ_fold, htype, htt, htitle, hu] at h
          · rcases hp : py_float a.price with _ | p
            · simp [summ_fold, htype, htt, htitle, hu, hp] at h
            · rcases hs : sval_getD a.side "" with _ | sideStr
              · simp [summ_fold, htype, htt, htitle, hu, hp, hs] at h
              · simp [summ_fold, htype, htt, htitle, hu, hp, hs] at h
                have := mapUpdate_trader_names_inv t
                  (updMarket addr walletName sideStr u p
                    ((sval_getD a.outcome "").getD ""))
                  st.1
                  (fun d hd => updMarket_trader_names_inv _ _ _ _ _ _ d hd) hm
                rw [← h]
                exact this
    · simp [summ_fold, htype] at h
      subst h
      exact hm

theorem summ_acts_trader_names_inv (addr walletName : String)
    (acts : List Activity) (st st' : List (String × MarketData) × Nat)
    (h : summ_acts addr walletName acts st = .ok st')
    (hm : ∀ td ∈ st.1, td.2.trader_names = dedupFirst td.2.wallet_names) :
    ∀ td ∈ st'.1, td.2.trader_names = dedupFirst td.2.wallet_names := by
  induction acts generalizing st with
  | nil =>
    simp [summ_acts] at h
    subst h
    exact hm
  | cons act rest ih =>
    rcases hf : summ_fold addr walletName act st with e | st2
    · simp [summ_acts, hf] at h
    · simp [summ_acts, hf] at h
      exact ih st2 h (summ_fold_trader_names_inv addr walletName act st st2 hf hm)

theorem agg_wallets_trader_names_inv (fetch : String → List Activity)
    (wallets : List (String × String))
    (st st' : List (String × MarketData) × Nat)
    (h : agg_wallets fetch wallets st = .ok st')
    (hm : ∀ td ∈ st.1, td.2.trader_names = dedupFirst td.2.wallet_names) :
    ∀ td ∈ st'.1, td.2.trader_names = dedupFirst td.2.wallet_names := by
  induction wallets generalizing st with
  | nil =>
    simp [agg_wallets] at h
    subst h
    exact hm
  | cons w rest ih =>
    rcases hf : summ_acts w.1 w.2 (fetch w.1) st with e | st2
    · cases w with
      | mk addr walletName => simp [agg_wallets, hf] at h
    · cases w with
      | mk addr walletName =>
        simp [agg_wallets, hf] at h
        exact ih st2 h
          (summ_acts_trader_names_inv addr walletName (fetch addr) st st2 hf hm)

/-- Claim C8, amended: the who line of a summarized market joins the
DISTINCT trader display names — the `trader_names` set, which always
equals the first-encounter deduplication of the accumulated
`wallet_names` list — rather than the duplicates-included name list. -/
theorem who_line_distinct_names (wallets : List (String × String))
    (fetch : String → List Activity) (m : List (String × MarketData))
    (total : Nat) (t : String) (d : MarketData)
    (h : aggregate_markets wallets fetch = .ok (m, total))
    (hmem : (t, d) ∈ m) :
    d.trader_names = dedupFirst d.wallet_names ∧
    (mkEntry (t, d)).who = py_join ", " (dedupFirst d.wallet_names) := by
  have hinv := agg_wallets_trader_names_inv fetch wallets ([], 0) (m, total) h
    (by intro td htd; simp at htd) (t, d) hmem
  refine ⟨hinv, ?_⟩
  show py_join ", " d.trader_names = py_join ", " (dedupFirst d.wallet_names)
  rw [hinv]

/-- Claim C8, witness: the market aggregated in the concrete C8 run
satisfies the amended who-line property. -/
theorem who_line_distinct_names_w :
    (⟨["0xa"], ["Alpha", "Alpha"], 2, 0, 20, [1, 1], ["Yes", "Yes"],
      ["Alpha"]⟩ : MarketData).trader_names =
      dedupFirst (["Alpha", "Alpha"]) ∧
    (mkEntry ("M", ⟨["0xa"], ["Alpha", "Alpha"], 2, 0, 20, [1, 1],
      ["Yes", "Yes"], ["Alpha"]⟩)).who =
      py_join ", " (dedupFirst (["Alpha", "Alpha"])) := by
  have h1 : aggregate_markets [("0xa", "Alpha")] c8_fetch =
      .ok ([("M", ⟨["0xa"], ["Alpha", "Alpha"], 2, 0, 20, [1, 1],
        ["Yes", "Yes"], ["Alpha"]⟩)], 2) := by
    simp [aggregate_markets, agg_wallets, summ_acts, summ_fold, c8_fetch,
      c8_trade, py_float, sval_get, sval_getD, mapUpdate, updMarket,
      insertIfAbsent, py_upper, defaultMarketData]
    norm_num
  exact who_line_distinct_names [("0xa", "Alpha")] c8_fetch _ 2 "M" _ h1
    (List.mem_singleton.2 rfl)

/-! ## Claim C7: malformed records and pass abortion -/

/-- Claim C7, counterexample: a malformed record is NOT always recovered
by defaulting and skipping.  A non-numeric `usdcSize` aborts the entire
aggregation pass (no `try` in `generate_wallet_summary`) — even the
preceding well-formed record's data is discarded — and in the
notification pass it aborts the remaining records of that wallet, so the
following well-formed record is neither notified nor marked seen.  A
stored-null title also aborts the wallet (at `title[:40]`, line 259), but
only AFTER the notification — title rendered `"None"` — went out and the
hash was marked seen. -/
theorem summary_abort_on_malformed_cex :
    generate_wallet_summary [("0xa", "Alpha")] (fun _ => [c7_good, c7_bad])
      = .error () ∧
    process_wallet "Alpha" [c7_bad, c7_good] [] = ⟨["hb"], [], true⟩ ∧
    process_wallet "Alpha" [c7_nulltitle, c7_good] [] =
      ⟨["ht"], [⟨"ht", "BUY", "Alpha", "None", "", 1, 1⟩], true⟩ := by
  exact ⟨rfl, rfl, rfl⟩

theorem pw_append_of_aborted (walletName : String)
    (acts₁ acts₂ : List Activity) (seen : List String)
    (h : (process_wallet walletName acts₁ seen).aborted = true) :
    process_wallet walletName (acts₁ ++ acts₂) seen =
      process_wallet walletName acts₁ seen := by
  induction acts₁ generalizing seen with
  | nil => simp [process_wallet] at h
  | cons act rest ih =>
    cases act with
    | other =>
      have e1 : process_wallet walletName (Activity.other :: rest) seen =
          process_wallet walletName rest seen := rfl
      have e2 : process_wallet walletName
          ((Activity.other :: rest) ++ acts₂) seen =
          process_wallet walletName (rest ++ acts₂) seen := rfl
      rw [e1] at h
      rw [e2, e1]
      exact ih seen h
    | record a =>
      by_cases htype : sval_get a.type ≠ some "TRADE"
      · have e1 : process_wallet walletName (Activity.record a :: rest) seen =
            process_wallet walletName rest seen := by
          simp [process_wallet, htype]
        have e2 : process_wallet walletName
            ((Activity.record a :: rest) ++ acts₂) seen =
            process_wallet walletName (rest ++ acts₂) seen := by
          simp [process_wallet, htype]
        rw [e1] at h
        rw [e2, e1]
        exact ih seen h
      · push_neg at htype
        rcases htx : sval_getD a.transactionHash "" with _ | tx
        · have e1 : process_wallet walletName (Activity.record a :: rest) seen
              = process_wallet walletName rest seen := by
            simp [process_wallet, htype, htx]
          have e2 : process_wallet walletName
              ((Activity.record a :: rest) ++ acts₂) seen =
              process_wallet walletName (rest ++ acts₂) seen := by
            simp [process_wallet, htype, htx]
          rw [e1] at h
          rw [e2, e1]
          exact ih seen h
        · by_cases hskip : tx = "" ∨ tx ∈ seen
          · have e1 : process_wallet walletName
                (Activity.record a :: rest) seen =
                process_wallet walletName rest seen := by
              rcases hskip with h1 | h2
              · simp [process_wallet, htype, htx, h1]
              · simp [process_wallet, htype, htx, h2]
            have e2 : process_wallet walletName
                ((Activity.record a :: rest) ++ acts₂) seen =
                process_wallet walletName (rest ++ acts₂) seen := by
              rcases hskip with h1 | h2
              · simp [process_wallet, htype, htx, h1]
              · simp [process_wallet, htype, htx, h2]
            rw [e1] at h
            rw [e2, e1]
            exact ih seen h
          · push_neg at hskip
            rcases hu : py_float a.usdcSize with _ | u
            · have key : ∀ acts : List Activity,
                  process_wallet walletName (Activity.record a :: acts) seen =
                    ⟨seen ++ [tx], [], true⟩ := by
                intro acts
                simp [process_wallet, htype, htx, hskip.1, hskip.2, hu]
              rw [show (Activity.record a :: rest) ++ acts₂ =
                Activity.record a :: (rest ++ acts₂) from rfl,
                key (rest ++ acts₂), key rest]
            · rcases hp : py_float a.price with _ | p
              · have key : ∀ acts : List Activity,
                    process_wallet walletName (Activity.record a :: acts) seen
                      = ⟨seen ++ [tx], [], true⟩ := by
                  intro acts
                  simp [process_wallet, htype, htx, hskip.1, hskip.2, hu, hp]
                rw [show (Activity.record a :: rest) ++ acts₂ =
                  Activity.record a :: (rest ++ acts₂) from rfl,
                  key (rest ++ acts₂), key rest]
              · rcases htt : sval_getD a.title "Unknown" with _ | ttl
                · have key : ∀ acts : List Activity,
                      process_wallet walletName (Activity.record a :: acts)
                        seen =
                        ⟨seen ++ [tx],
                         [⟨tx, pyRender (sval_getD a.side "N/A"), walletName,
                           pyRender (sval_getD a.title "Unknown"),
                           pyRender (sval_getD a.outcome ""), u, p⟩],
                         true⟩ := by
                    intro acts
                    simp [process_wallet, htype, htx, hskip.1, hskip.2, hu,
                      hp, htt]
                  rw [show (Activity.record a :: rest) ++ acts₂ =
                    Activity.record a :: (rest ++ acts₂) from rfl,
                    key (rest ++ acts₂), key rest]
                · have key : ∀ acts : List Activity,
                      process_wallet walletName (Activity.record a :: acts)
                        seen =
                        ⟨(process_wallet walletName acts
                            (seen ++ [tx])).seen,
                         ⟨tx, pyRender (sval_getD a.side "N/A"), walletName,
                          pyRender (sval_getD a.title "Unknown"),
                          pyRender (sval_getD a.outcome ""), u, p⟩ ::
                           (process_wallet walletName acts
                             (seen ++ [tx])).notifs,
                         (process_wallet walletName acts
                           (seen ++ [tx])).aborted⟩ := by
                    intro acts
                    simp [process_wallet, htype, htx, hskip.1, hskip.2, hu,
                      hp, htt]
                  have h' : (process_wallet walletName rest
                      (seen ++ [tx])).aborted = true := by
                    rw [key rest] at h
                    exact h
                  rw [show (Activity.record a :: rest) ++ acts₂ =
                    Activity.record a :: (rest ++ acts₂) from rfl,
                    key (rest ++ acts₂), key rest, ih _ h']

theorem check_core_append (fetch : String → List Activity)
    (wl₁ wl₂ : List (String × String)) (seen : List String) :
    check_core fetch (wl₁ ++ wl₂) seen =
      ((check_core fetch wl₂ (check_core fetch wl₁ seen).1).1,
       (check_core fetch wl₁ seen).2 ++
         (check_core fetch wl₂ (check_core fetch wl₁ seen).1).2) := by
  induction wl₁ generalizing seen with
  | nil => simp [check_core]
  | cons w rest ih =>
    cases w with
    | mk addr walletName =>
      simp [check_core, ih, List.append_assoc]

theorem summ_fold_ok_of_foldSafe (addr walletName : String) (act : Activity)
    (st : List (String × MarketData) × Nat) (h : foldSafe act = true) :
    ∃ st2, summ_fold addr walletName act st = .ok st2 := by
  cases act with
  | other => exact ⟨st, rfl⟩
  | record a =>
    simp only [foldSafe, Bool.and_eq_true, Option.isSome_iff_exists,
      Bool.not_eq_true', Option.isNone_eq_false_iff,
      Option.isSome_iff_exists] at h
    rcases h with ⟨⟨⟨u, hu⟩, ⟨p, hp⟩⟩, ⟨sideStr, hside⟩⟩
    by_cases htype : sval_get a.type = some "TRADE"
    · rcases htt : sval_getD a.title "" with _ | t
      · exact ⟨st, by simp [summ_fold, htype, htt]⟩
      · by_cases htitle : t = ""
        · exact ⟨st, by simp [summ_fold, htype, htt, htitle]⟩
        · exact ⟨(mapUpdate t
            (updMarket addr walletName sideStr u p
              ((sval_getD a.outcome "").getD "")) st.1, st.2 + 1),
            by simp [summ_fold, htype, htt, htitle, hu, hp, hside]⟩
    · exact ⟨st, by simp [summ_fold, htype]⟩

theorem summ_acts_ok_of_foldSafe (addr walletName : String)
    (acts : List Activity) (st : List (String × MarketData) × Nat)
    (h : ∀ a ∈ acts, foldSafe a = true) :
    ∃ st2, summ_acts addr walletName acts st = .ok st2 := by
  induction acts generalizing st with
  | nil => exact ⟨st, rfl⟩
  | cons act rest ih =>
    rcases summ_fold_ok_of_foldSafe addr walletName act st
      (h act (List.mem_cons_self _ _)) with ⟨st1, hst1⟩
    rcases ih st1 (fun a ha => h a (List.mem_cons_of_mem _ ha)) with ⟨st2, hst2⟩
    exact ⟨st2, by simp [summ_acts, hst1, hst2]⟩

theorem agg_wallets_ok_of_foldSafe (fetch : String → List Activity)
    (wallets : List (String × String))
    (st : List (String × MarketData) × Nat)
    (h : ∀ w ∈ wallets, ∀ a ∈ fetch w.1, foldSafe a = true) :
    ∃ st2, agg_wallets fetch wallets st = .ok st2 := by
  induction wallets generalizing st with
  | nil => exact ⟨st, rfl⟩
  | cons w rest ih =>
    cases w with
    | mk addr walletName =>
      rcases summ_acts_ok_of_foldSafe addr walletName (fetch addr) st
        (h (addr, walletName) (List.mem_cons_self _ _)) with ⟨st1, hst1⟩
      rcases ih st1 (fun w' hw' => h w' (List.mem_cons_of_mem _ hw')) with
        ⟨st2, hst2⟩
      exact ⟨st2, by simp [agg_wallets, hst1, hst2]⟩

/-- Claim C7, amended: missing or falsy fields default safely and records
lacking a usable hash (notification pass) or title (aggregation pass) are
skipped, but two record shapes raise instead of being recovered: a
non-numeric value where a number is expected (`float`), and a stored-null
string where `.upper()`/slicing is applied (`side` in the aggregation
pass at line 310, `title` in the notification pass at line 259).  In the
notification pass the per-wallet `try` confines the damage: an aborted
wallet's remaining records are skipped — for a null title only AFTER the
notification went out and the hash was marked seen — while every other
wallet of the pass is still processed (the pass decomposes
wallet-by-wallet unconditionally).  In the aggregation pass there is no
handler, and only passes all of whose records convert and carry
non-null sides are guaranteed to complete — one bad record aborts the
entire pass (counterexample above). -/
theorem error_isolation :
    (∀ (walletName : String) (acts₁ acts₂ : List Activity)
        (seen : List String),
      (process_wallet walletName acts₁ seen).aborted = true →
      process_wallet walletName (acts₁ ++ acts₂) seen =
        process_wallet walletName acts₁ seen) ∧
    (∀ (fetch : String → List Activity) (wl₁ wl₂ : List (String × String))
        (seen : List String),
      check_core fetch (wl₁ ++ wl₂) seen =
        ((check_core fetch wl₂ (check_core fetch wl₁ seen).1).1,
         (check_core fetch wl₁ seen).2 ++
           (check_core fetch wl₂ (check_core fetch wl₁ seen).1).2)) ∧
    (∀ (wallets : List (String × String)) (fetch : String → List Activity),
      (∀ w ∈ wallets, ∀ a ∈ fetch w.1, foldSafe a = true) →
      ∃ st, aggregate_markets wallets fetch = .ok st) ∧
    (∀ (walletName : String) (a : ActRecord) (rest : List Activity)
        (seen : List String) (tx : String) (u p : ℚ),
      sval_get a.type = some "TRADE" →
      sval_getD a.transactionHash "" = some tx → tx ≠ "" → tx ∉ seen →
      py_float a.usdcSize = some u → py_float a.price = some p →
      sval_getD a.title "Unknown" = none →
      process_wallet walletName (.record a :: rest) seen =
        ⟨seen ++ [tx],
         [⟨tx, pyRender (sval_getD a.side "N/A"), walletName, "None",
           pyRender (sval_getD a.outcome ""), u, p⟩], true⟩) := by
  refine ⟨pw_append_of_aborted, check_core_append,
    fun wallets fetch h => agg_wallets_ok_of_foldSafe fetch wallets ([], 0) h,
    ?_⟩
  intro walletName a rest seen tx u p htype htx htxe htxs hu hp htt
  simp [process_wallet, htype, htx, htxe, htxs, hu, hp, htt, pyRender]

/-- Claim C7, witness: the aborted wallet ignores its trailing records,
an all-well-formed aggregation pass completes, and a null-title record
notifies (title rendered `"None"`), marks its hash seen and aborts its
wallet. -/
theorem error_isolation_w :
    process_wallet "W" ([c7_bad] ++ [c7_good]) [] =
      process_wallet "W" [c7_bad] [] ∧
    (∃ st, aggregate_markets [("0xa", "Alpha")] (fun _ => [c7_good]) =
      .ok st) ∧
    process_wallet "W"
      (.record ⟨SVal.str "TRADE", SVal.str "ht", SVal.str "BUY", SVal.nullv,
        SVal.absent, JVal.num 1, JVal.num 1⟩ :: [c7_good]) [] =
      ⟨[] ++ ["ht"], [⟨"ht", pyRender (sval_getD (SVal.str "BUY") "N/A"),
        "W", "None", pyRender (sval_getD SVal.absent ""), 1, 1⟩], true⟩ :=
  ⟨error_isolation.1 "W" [c7_bad] [c7_good] [] rfl,
   error_isolation.2.2.1 [("0xa", "Alpha")] (fun _ => [c7_good]) (by decide),
   error_isolation.2.2.2 "W"
     ⟨SVal.str "TRADE", SVal.str "ht", SVal.str "BUY", SVal.nullv,
       SVal.absent, JVal.num 1, JVal.num 1⟩ [c7_good] [] "ht" 1 1
     rfl rfl (by decide) (by decide) rfl rfl rfl⟩

/-! ## Claims C1/C2: dedup invariants and the compaction -/

theorem fHash_injective : Function.Injective fHash := by
  intro i j hij
  have hdata := congrArg String.data hij
  simp only [fHash] at hdata
  have hlen := congrArg List.length hdata
  simp only [List.length_replicate] at hlen
  omega

theorem fHash_ne_empty (i : Nat) : fHash i ≠ "" := by
  intro heq
  have hdata := congrArg String.data heq
  have : (List.replicate (i + 1) 'a').length = ([] : List Char).length :=
    congrArg List.length hdata
  simp at this

theorem fHash_ne_dup (i : Nat) : fHash i ≠ dupHash := by
  intro hsame
  have hdata := congrArg String.data hsame
  have hd : 'd' ∈ (fHash i).data := by
    rw [hdata]
    decide
  have hd' : 'd' ∈ List.replicate (i + 1) 'a' := hd
  have := List.eq_of_mem_replicate hd'
  simp at this

theorem hashList_nodup : hashList.Nodup :=
  (List.nodup_range 2001).map fHash_injective

theorem dup_not_mem_hashList : dupHash ∉ hashList := by
  intro hmem
  rcases List.mem_map.1 hmem with ⟨i, _, hi⟩
  exact fHash_ne_dup i hi

theorem hashList_length : hashList.length = 2001 := by
  simp [hashList]

/-- Processing a batch of fresh, pairwise-distinct, non-empty hashes
appends all of them to `seen_txs` and notifies each exactly once. -/
theorem fresh_batch (hs : List String) (walletName : String)
    (seen : List String) (hnd : hs.Nodup)
    (hfresh : ∀ x ∈ hs, ¬ x = "" ∧ x ∉ seen) :
    process_wallet walletName (hs.map cexTrade) seen =
      ⟨seen ++ hs, hs.map (cexNotifOf walletName), false⟩ := by
  induction hs generalizing seen with
  | nil => simp [process_wallet]
  | cons x rest ih =>
    rcases List.nodup_cons.1 hnd with ⟨hx, hnd'⟩
    rcases hfresh x (List.mem_cons_self _ _) with ⟨hxe, hxs⟩
    have hfresh' : ∀ y ∈ rest, ¬ y = "" ∧ y ∉ seen ++ [x] := by
      intro y hy
      refine ⟨(hfresh y (List.mem_cons_of_mem _ hy)).1, ?_⟩
      have hys := (hfresh y (List.mem_cons_of_mem _ hy)).2
      simp only [List.mem_append, List.mem_singleton]
      rintro (hc | rfl)
      · exact hys hc
      · exact hx hy
    have hih := ih (seen ++ [x]) hnd' hfresh'
    simp [process_wallet, cexTrade, sval_get, sval_getD, pyRender, hxe, hxs,
      py_float, hih, cexNotifOf, List.append_assoc]

theorem big_core (seen : List String)
    (hfree : ∀ x ∈ hashList, x ∉ seen) :
    check_core bigFetch [("0xw", "W")] seen =
      (seen ++ hashList, hashList.map (cexNotifOf "W")) := by
  have hpw := fresh_batch hashList "W" seen hashList_nodup
    (fun x hx => ⟨by
      rcases List.mem_map.1 hx with ⟨i, _, hi⟩
      rw [← hi]
      exact fHash_ne_empty i, hfree x hx⟩)
  simp [check_core, bigFetch, hpw]

theorem dup_core (seen : List String) (hd : dupHash ∉ seen) :
    check_core dupFetch [("0xw", "W")] seen =
      (seen ++ [dupHash], [cexNotifOf "W" dupHash]) := by
  have hpw := fresh_batch [dupHash] "W" seen (List.nodup_singleton _)
    (by
      intro x hx
      rcases List.mem_singleton.1 hx with rfl
      exact ⟨by decide, hd⟩)
  simp only [List.map_cons, List.map_nil] at hpw
  simp [check_core, dupFetch, hpw]

theorem pass1_dup : check_new_trades id dupFetch [("0xw", "W")] [] =
    ([dupHash], [cexNotifOf "W" dupHash]) := by
  rw [check_new_trades, dup_core [] (by simp)]
  simp [compact_seen]

theorem pass2_big : check_new_trades id bigFetch [("0xw", "W")] [dupHash] =
    (hashList.drop 1001, hashList.map (cexNotifOf "W")) := by
  rw [check_new_trades,
    big_core [dupHash] (by
      intro x hx
      rcases List.mem_map.1 hx with ⟨i, _, hi⟩
      simp only [List.mem_singleton]
      rw [← hi]
      exact fHash_ne_dup i)]
  have hlen : ([dupHash] ++ hashList).length = 2002 := by
    simp [hashList_length]
  have h1 : ([dupHash] ++ hashList).length > 2000 := by
    rw [hlen]
    norm_num
  have h2 : compact_seen id ([dupHash] ++ hashList) =
      ([dupHash] ++ hashList).drop (([dupHash] ++ hashList).length - 1000) := by
    rw [compact_seen, if_pos h1]
    simp only [id_eq]
  have h3 : ([dupHash] ++ hashList).length - 1000 = 1002 := by
    rw [hlen]
  have h4 : (dupHash :: hashList).drop 1002 = hashList.drop 1001 := by
    have h12 : (1002 : Nat) = 1 + 1001 := by norm_num
    rw [h12, ← List.drop_drop, List.drop_one, List.tail_cons]
  rw [h2, h3, List.singleton_append, h4]

theorem pass3_dup :
    check_new_trades id dupFetch [("0xw", "W")] (hashList.drop 1001) =
      (hashList.drop 1001 ++ [dupHash], [cexNotifOf "W" dupHash]) := by
  have hd : dupHash ∉ hashList.drop 1001 := fun hmem =>
    dup_not_mem_hashList ((List.drop_sublist 1001 hashList).subset hmem)
  rw [check_new_trades, dup_core (hashList.drop 1001) hd]
  have hlen : (hashList.drop 1001 ++ [dupHash]).length = 1001 := by
    simp [hashList_length]
  rw [compact_seen, if_neg (by rw [hlen]; norm_num)]

/-- Claim C1, counterexample: across three short-cycle passes — one
notifying `dupHash`, one feeding 2001 fresh hashes (which pushes
`seen_txs` to 2002 entries and triggers the compaction, evicting
`dupHash` even under the insertion-order iteration `id`, a permissible
set iteration order), and one feeding `dupHash` again — the same
transaction hash triggers TWO notifications: the at-most-once guarantee
does not survive a compaction. -/
theorem dedup_renotify_after_compaction_cex :
    ((run_passes id [("0xw", "W")] [dupFetch, bigFetch, dupFetch] []).2.filter
      (fun n => n.txHash = dupHash)).length = 2 := by
  have hmid : (hashList.map (cexNotifOf "W")).filter
      (fun n => n.txHash = dupHash) = [] := by
    rw [List.filter_eq_nil_iff]
    intro n hn
    rcases List.mem_map.1 hn with ⟨x, hx, rfl⟩
    rcases List.mem_map.1 hx with ⟨i, _, rfl⟩
    simpa [cexNotifOf] using fHash_ne_dup i
  simp only [run_passes, pass1_dup, pass2_big, pass3_dup]
  simp [List.filter_append, hmid, cexNotifOf]

/-- The dedup invariants of the record loop: `seen_txs` only grows, every
notification's hash was unseen before the pass and is recorded
afterwards, the pass notifies pairwise-distinct hashes, and
duplicate-freeness of `seen_txs` is preserved. -/
theorem pw_invariants (walletName : String) (acts : List Activity)
    (seen : List String) :
    (∀ x ∈ seen, x ∈ (process_wallet walletName acts seen).seen) ∧
    (∀ n ∈ (process_wallet walletName acts seen).notifs,
      n.txHash ∉ seen ∧ n.txHash ∈ (process_wallet walletName acts seen).seen) ∧
    ((process_wallet walletName acts seen).notifs.map Notif.txHash).Nodup ∧
    (seen.Nodup → (process_wallet walletName acts seen).seen.Nodup) := by
  induction acts generalizing seen with
  | nil => exact ⟨fun x hx => hx, by simp [process_wallet], by
      simp [process_wallet], fun h => h⟩
  | cons act rest ih =>
    cases act with
    | other =>
      have e : process_wallet walletName (Activity.other :: rest) seen =
          process_wallet walletName rest seen := rfl
      rw [e]
      exact ih seen
    | record a =>
      by_cases htype : sval_get a.type ≠ some "TRADE"
      · have e : process_wallet walletName (Activity.record a :: rest) seen =
            process_wallet walletName rest seen := by
          simp [process_wallet, htype]
        rw [e]
        exact ih seen
      · push_neg at htype
        rcases htx : sval_getD a.transactionHash "" with _ | tx
        · have e : process_wallet walletName (Activity.record a :: rest) seen
              = process_wallet walletName rest seen := by
            simp [process_wallet, htype, htx]
          rw [e]
          exact ih seen
        · by_cases hskip : tx = "" ∨ tx ∈ seen
          · have e : process_wallet walletName
                (Activity.record a :: rest) seen =
                process_wallet walletName rest seen := by
              rcases hskip with h1 | h2
              · simp [process_wallet, htype, htx, h1]
              · simp [process_wallet, htype, htx, h2]
            rw [e]
            exact ih seen
          · push_neg at hskip
            have hsub : ∀ x ∈ seen, x ∈ seen ++ [tx] := by
              intro x hx
              exact List.mem_append_left _ hx
            have htxmem : tx ∈ seen ++ [tx] := by
              simp
            have hgrow : seen.Nodup → (seen ++ [tx]).Nodup := by
              intro hnd
              rw [List.nodup_append]
              exact ⟨hnd, List.nodup_singleton _,
                fun x hx hx' => hskip.2 (by
                  rcases List.mem_singleton.1 hx' with rfl
                  exact hx)⟩
            rcases hu : py_float a.usdcSize with _ | u
            · have e : process_wallet walletName (Activity.record a :: rest)
                  seen = ⟨seen ++ [tx], [], true⟩ := by
                simp [process_wallet, htype, htx, hskip.1, hskip.2, hu]
              rw [e]
              exact ⟨hsub, by simp, by simp, fun hnd => hgrow hnd⟩
            · rcases hp : py_float a.price with _ | p
              · have e : process_wallet walletName
                    (Activity.record a :: rest) seen =
                    ⟨seen ++ [tx], [], true⟩ := by
                  simp [process_wallet, htype, htx, hskip.1, hskip.2, hu, hp]
                rw [e]
                exact ⟨hsub, by simp, by simp, fun hnd => hgrow hnd⟩
              · rcases htt : sval_getD a.title "Unknown" with _ | ttl
                · have e : process_wallet walletName
                      (Activity.record a :: rest) seen =
                      ⟨seen ++ [tx],
                       [⟨tx, pyRender (sval_getD a.side "N/A"), walletName,
                         pyRender (sval_getD a.title "Unknown"),
                         pyRender (sval_getD a.outcome ""), u, p⟩],
                       true⟩ := by
                    simp [process_wallet, htype, htx, hskip.1, hskip.2, hu,
                      hp, htt]
                  rw [e]
                  refine ⟨hsub, ?_, by simp, fun hnd => hgrow hnd⟩
                  intro n hn
                  rcases List.mem_singleton.1 hn with rfl
                  exact ⟨hskip.2, htxmem⟩
                · have e : process_wallet walletName
                      (Activity.record a :: rest) seen =
                      ⟨(process_wallet walletName rest (seen ++ [tx])).seen,
                       ⟨tx, pyRender (sval_getD a.side "N/A"), walletName,
                        pyRender (sval_getD a.title "Unknown"),
                        pyRender (sval_getD a.outcome ""), u, p⟩ ::
                         (process_wallet walletName rest
                           (seen ++ [tx])).notifs,
                       (process_wallet walletName rest
                         (seen ++ [tx])).aborted⟩ := by
                    simp [process_wallet, htype, htx, hskip.1, hskip.2, hu,
                      hp, htt]
                  rw [e]
                  rcases ih (seen ++ [tx]) with ⟨ih1, ih2, ih3, ih4⟩
                  refine ⟨?_, ?_, ?_, ?_⟩
                  · intro x hx
                    exact ih1 x (hsub x hx)
                  · intro n hn
                    rcases List.mem_cons.1 hn with rfl | hn'
                    · exact ⟨hskip.2, ih1 _ htxmem⟩
                    · rcases ih2 n hn' with ⟨hn1, hn2⟩
                      refine ⟨fun hc => hn1 (hsub _ hc), hn2⟩
                  · refine List.nodup_cons.2 ⟨?_, ih3⟩
                    intro hc
                    rcases List.mem_map.1 hc with ⟨n, hn, htx2⟩
                    exact (ih2 n hn).1 (htx2 ▸ htxmem)
                  · intro hnd
                    exact ih4 (hgrow hnd)

/-- The dedup invariants lifted over the wallet loop of one pass. -/
theorem cc_invariants (fetch : String → List Activity)
    (wallets : List (String × String)) (seen : List String) :
    (∀ x ∈ seen, x ∈ (check_core fetch wallets seen).1) ∧
    (∀ n ∈ (check_core fetch wallets seen).2,
      n.txHash ∉ seen ∧ n.txHash ∈ (check_core fetch wallets seen).1) ∧
    ((check_core fetch wallets seen).2.map Notif.txHash).Nodup ∧
    (seen.Nodup → (check_core fetch wallets seen).1.Nodup) := by
  induction wallets generalizing seen with
  | nil => exact ⟨fun x hx => hx, by simp [check_core], by
      simp [check_core], fun h => h⟩
  | cons w rest ih =>
    cases w with
    | mk addr walletName =>
      have e : check_core fetch ((addr, walletName) :: rest) seen =
          ((check_core fetch rest
             (process_wallet walletName (fetch addr) seen).seen).1,
           (process_wallet walletName (fetch addr) seen).notifs ++
             (check_core fetch rest
               (process_wallet walletName (fetch addr) seen).seen).2) := rfl
      rw [e]
      rcases pw_invariants walletName (fetch addr) seen with
        ⟨pw1, pw2, pw3, pw4⟩
      rcases ih ((process_wallet walletName (fetch addr) seen).seen) with
        ⟨ih1, ih2, ih3, ih4⟩
      refine ⟨?_, ?_, ?_, ?_⟩
      · intro x hx
        exact ih1 x (pw1 x hx)
      · intro n hn
        rcases List.mem_append.1 hn with hn' | hn'
        · rcases pw2 n hn' with ⟨hn1, hn2⟩
          exact ⟨hn1, ih1 _ hn2⟩
        · rcases ih2 n hn' with ⟨hn1, hn2⟩
          exact ⟨fun hc => hn1 (pw1 _ hc), hn2⟩
      · rw [List.map_append, List.nodup_append]
        refine ⟨pw3, ih3, ?_⟩
        intro x hx hx'
        rcases List.mem_map.1 hx with ⟨n, hn, rfl⟩
        rcases List.mem_map.1 hx' with ⟨n', hn', htx⟩
        exact (ih2 n' hn').1 (htx ▸ (pw2 n hn).2)
      · intro hnd
        exact ih4 (pw4 hnd)

/-- A list whose image under `f` is duplicate-free holds at most one
element of any given fibre. -/
theorem length_filter_le_one_of_map_nodup {α : Type} (f : α → String)
    (l : List α) (h : String) (hnd : (l.map f).Nodup) :
    (l.filter (fun x => f x = h)).length ≤ 1 := by
  induction l with
  | nil => simp
  | cons a rest ih =>
    rw [List.map_cons, List.nodup_cons] at hnd
    by_cases ha : f a = h
    · have hrest : rest.filter (fun x => f x = h) = [] := by
        rw [List.filter_eq_nil_iff]
        intro b hb hfb
        exact hnd.1 (List.mem_map.2 ⟨b, hb, by
          simp only [decide_eq_true_eq] at hfb
          rw [hfb, ha]⟩)
      simp [List.filter_cons, ha, hrest]
    · simp only [List.filter_cons, decide_eq_true_eq, ha, if_false]
      exact ih hnd.2

/-- Claim C1, amended: within any single short-cycle pass (and hence
between compactions, while a hash stays in `seen_txs`), the dedup is
sound — a hash already in `seen_txs` is never re-notified, each hash is
notified at most once per pass, and every notified hash is recorded in
`seen_txs` at the end of the wallet loop.  A compaction, however, may
evict a hash, after which the same hash can be notified again
(counterexample above). -/
theorem dedup_never_renotify_tracked (fetch : String → List Activity)
    (wallets : List (String × String)) (seen : List String) (h : String) :
    ((check_core fetch wallets seen).2.filter
      (fun n => n.txHash = h)).length ≤ 1 ∧
    (h ∈ seen →
      (check_core fetch wallets seen).2.filter (fun n => n.txHash = h) = []) ∧
    (∀ n ∈ (check_core fetch wallets seen).2,
      n.txHash ∈ (check_core fetch wallets seen).1) := by
  rcases cc_invariants fetch wallets seen with ⟨_, cc2, cc3, _⟩
  refine ⟨length_filter_le_one_of_map_nodup Notif.txHash _ h cc3, ?_, ?_⟩
  · intro hmem
    rw [List.filter_eq_nil_iff]
    intro n hn hfn
    simp only [decide_eq_true_eq] at hfn
    exact (cc2 n hn).1 (hfn ▸ hmem)
  · intro n hn
    exact (cc2 n hn).2

/-- Claim C1, witness: a pass starting with `"h"` already tracked
notifies it zero times. -/
theorem dedup_never_renotify_tracked_w :
    ((check_core (fun _ => [cexTrade "h"]) [("0xw", "W")] ["h"]).2.filter
      (fun n => n.txHash = "h")).length ≤ 1 ∧
    (check_core (fun _ => [cexTrade "h"]) [("0xw", "W")] ["h"]).2.filter
      (fun n => n.txHash = "h") = [] :=
  ⟨(dedup_never_renotify_tracked (fun _ => [cexTrade "h"]) [("0xw", "W")]
      ["h"] "h").1,
   (dedup_never_renotify_tracked (fun _ => [cexTrade "h"]) [("0xw", "W")]
      ["h"] "h").2.1 (by decide)⟩

/-- Claim C2, amended: whenever `seen_txs` exceeds 2000 entries at the
end of a short-cycle pass, it is compacted to exactly 1000 distinct
retained entries, each of which was in the pre-compaction set; which 1000
survive depends on the unspecified set iteration order (any permutation
`order`), and need not be the most recently added ones. -/
theorem compaction_bound (order : List String → List String)
    (fetch : String → List Activity) (wallets : List (String × String))
    (seen : List String) (hperm : ∀ l, (order l).Perm l)
    (hnodup : seen.Nodup)
    (hbig : (check_core fetch wallets seen).1.length > 2000) :
    (check_new_trades order fetch wallets seen).1.length = 1000 ∧
    (check_new_trades order fetch wallets seen).1.Nodup ∧
    ∀ x ∈ (check_new_trades order fetch wallets seen).1,
      x ∈ (check_core fetch wallets seen).1 := by
  have e : (check_new_trades order fetch wallets seen).1 =
      compact_seen order (check_core fetch wallets seen).1 := rfl
  have hplen : (order (check_core fetch wallets seen).1).length =
      (check_core fetch wallets seen).1.length :=
    (hperm _).length_eq
  have ec : compact_seen order (check_core fetch wallets seen).1 =
      (order (check_core fetch wallets seen).1).drop
        ((order (check_core fetch wallets seen).1).length - 1000) := by
    rw [compact_seen, if_pos hbig]
  have hsnodup : (check_core fetch wallets seen).1.Nodup :=
    (cc_invariants fetch wallets seen).2.2.2 hnodup
  refine ⟨?_, ?_, ?_⟩
  · rw [e, ec, List.length_drop, hplen]
    omega
  · rw [e, ec]
    exact ((hperm _).nodup_iff.2 hsnodup).sublist (List.drop_sublist _ _)
  · intro x hx
    rw [e, ec] at hx
    exact (hperm _).subset ((List.drop_sublist _ _).subset hx)

theorem check_new_trades_fst (order : List String → List String)
    (fetch : String → List Activity) (wallets : List (String × String))
    (seen : List String) :
    (check_new_trades order fetch wallets seen).1 =
      compact_seen order (check_core fetch wallets seen).1 := rfl

theorem mem_drop_concat {α : Type} (X : List α) (a : α) (n : Nat)
    (h : n ≤ X.length) : a ∈ (X ++ [a]).drop n := by
  induction X generalizing n with
  | nil =>
    have : n = 0 := Nat.le_zero.1 h
    subst this
    simp
  | cons x X ih =>
    cases n with
    | zero => simp
    | succ n =>
      rw [List.cons_append, List.drop_succ_cons]
      exact ih n (Nat.succ_le_succ_iff.1 h)

theorem big_core_nil : check_core bigFetch [("0xw", "W")] [] =
    (hashList, hashList.map (cexNotifOf "W")) := by
  have := big_core [] (by intro x hx; simp)
  simpa using this

theorem hashList_split :
    hashList = (List.range 2000).map fHash ++ [fHash 2000] := by
  rw [hashList, List.range_succ, List.map_append, List.map_singleton]

/-- Claim C2, counterexample: the claim says the 1000 retained entries
are the most-recently-added ones.  CPython fixes no iteration order for
`list(set)`; under the (permissible) iteration order that reverses
insertion order, the compacted set after a pass adding
`fHash 0 … fHash 2000` does NOT retain the most recent hash
`fHash 2000`, and differs from the most-recently-added-1000 set. -/
theorem compaction_not_most_recent_cex :
    fHash 2000 ∈ (check_core bigFetch [("0xw", "W")] []).1.drop
      ((check_core bigFetch [("0xw", "W")] []).1.length - 1000) ∧
    fHash 2000 ∉ (check_new_trades List.reverse bigFetch [("0xw", "W")] []).1 ∧
    (check_new_trades List.reverse bigFetch [("0xw", "W")] []).1 ≠
      (check_core bigFetch [("0xw", "W")] []).1.drop
        ((check_core bigFetch [("0xw", "W")] []).1.length - 1000) := by
  have h1 : fHash 2000 ∈ (check_core bigFetch [("0xw", "W")] []).1.drop
      ((check_core bigFetch [("0xw", "W")] []).1.length - 1000) := by
    rw [big_core_nil]
    simp only [hashList_length]
    have hsub : (2001 : Nat) - 1000 = 1001 := by norm_num
    rw [hsub, hashList_split]
    exact mem_drop_concat _ _ 1001 (by simp)
  have hres : (check_new_trades List.reverse bigFetch [("0xw", "W")] []).1 =
      hashList.reverse.drop 1001 := by
    rw [check_new_trades_fst, big_core_nil]
    rw [compact_seen, if_pos (by rw [hashList_length]; norm_num)]
    rw [List.length_reverse, hashList_length]
  have hrev : hashList.reverse =
      fHash 2000 :: ((List.range 2000).map fHash).reverse := by
    rw [hashList_split, List.reverse_append, List.reverse_singleton,
      List.singleton_append]
  have hnm : fHash 2000 ∉ ((List.range 2000).map fHash).reverse := by
    rw [List.mem_reverse]
    intro hc
    rcases List.mem_map.1 hc with ⟨i, hi, hfi⟩
    have hieq := fHash_injective hfi
    rw [List.mem_range] at hi
    omega
  have hdropeq : hashList.reverse.drop 1001 =
      (((List.range 2000).map fHash).reverse).drop 1000 := by
    rw [hrev]
    have h12 : (1001 : Nat) = 1 + 1000 := by norm_num
    rw [h12, ← List.drop_drop, List.drop_one, List.tail_cons]
  have h2 : fHash 2000 ∉
      (check_new_trades List.reverse bigFetch [("0xw", "W")] []).1 := by
    rw [hres, hdropeq]
    intro hmem
    exact hnm ((List.drop_sublist _ _).subset hmem)
  exact ⟨h1, h2, fun heq => h2 (heq ▸ h1)⟩

/-- Claim C2, witness: a pass that grows `seen_txs` to 2001 entries
compacts it to exactly 1000 distinct entries (under insertion-order
iteration). -/
theorem compaction_bound_w :
    (check_new_trades id bigFetch [("0xw", "W")] []).1.length = 1000 ∧
    (check_new_trades id bigFetch [("0xw", "W")] []).1.Nodup :=
  ⟨(compaction_bound id bigFetch [("0xw", "W")] []
      (fun l => List.Perm.refl l) List.nodup_nil
      (by rw [big_core_nil]; rw [hashList_length]; norm_num)).1,
   (compaction_bound id bigFetch [("0xw", "W")] []
      (fun l => List.Perm.refl l) List.nodup_nil
      (by rw [big_core_nil]; rw [hashList_length]; norm_num)).2.1⟩

end PolyTrack
